import Mathlib

/-!
Verification development for the OpenFlexure timelapse controller
(`openflexure-example.py`).  The Python source is shallowly embedded:

* `parse_time_value` embeds the regex-based duration parser (lines 46-55).
  The regex `^\s*((\d+)\s*d)?\s*((\d+)\s*h)?\s*((\d+)\s*m)?\s*((\d+)\s*s)?\s*$`
  (IGNORECASE) is deterministic: every optional group starts with a digit run
  followed by a fixed unit letter, so greedy matching never needs backtracking
  across groups, and the embedding below is a direct recursive-descent
  rendering of it.  The character classes `\s` and `\d` are embedded on
  their ASCII fragment (CPython's classes on `str` patterns additionally
  accept Unicode whitespace and Unicode decimal digits); theorems that
  quantify over arbitrary input strings therefore carry an explicit
  all-ASCII hypothesis, and concrete inputs in theorems are ASCII.
* `AppState` embeds the mutable fields of class `App` that the verified
  claims touch, together with an explicit log `hw` of hardware calls
  (LED sets, relative moves, photo captures, preview start/stop) and a log
  `messages` of message boxes shown to the operator.
* The methods `move`, `toggle_preview`, `update_led`, `change_increments`,
  `start_timelapse`, `stop_timelapse`, `finish_timelapse` and `capture_loop`
  are embedded as pure state transformers.  Hardware faults raised by
  `move_rel` / `take_photo` are modelled by a `fault : Bool` input; the
  returned `Bool` is `true` when the exception propagates to the caller
  (the `with self.sb` context manager does not suppress exceptions and does
  not touch the LED on exit).
* Wall-clock instants are natural numbers (seconds).  `capture_loop` takes
  the loop-top instant `now` and the duration `overhead` of the frame
  (photo + display work), so the `root.after(int(freq*1000), ...)` call at
  the end of the body schedules the next iteration at `now + overhead + freq`.
* `fire` embeds the Tk event loop nominally firing pending `after`
  callbacks: each pending callback runs `capture_loop` at its scheduled
  instant with zero overhead; `fuel` bounds the number of callback firings.
-/

/-- The ASCII fragment of Python `\s`: the whitespace characters the regex
and `str.strip()` treat as blank within the ASCII range.  CPython's `\s` on
a `str` pattern additionally matches Unicode whitespace (U+00A0 and
friends); the embedding models the parser on ASCII inputs only, and every
theorem below that quantifies over arbitrary strings carries an explicit
all-ASCII hypothesis so that it asserts nothing about inputs outside the
modelled fragment. -/
def isWs (c : Char) : Bool :=
  c = ' ' || c = '\t' || c = '\n' || c = '\r' || c = '\x0b' || c = '\x0c'

/-- Drop the leading whitespace of a character list (one `\s*` of the regex). -/
def dropWs : List Char → List Char
  | [] => []
  | c :: cs => if isWs c then dropWs cs else c :: cs

/-- Python `str.strip()`: remove leading and trailing whitespace. -/
def stripWs (s : List Char) : List Char :=
  (dropWs (dropWs s).reverse).reverse

/-- Split off the leading digit run (`\d+`, possibly empty), on the ASCII
fragment of Python `\d`: `Char.isDigit` is exactly `0`-`9`, while CPython's
`\d` (and `int()`) also accept Unicode decimal digits, which are outside
the modelled fragment. -/
def splitDigits : List Char → List Char × List Char
  | [] => ([], [])
  | c :: cs =>
    if c.isDigit then
      let p := splitDigits cs
      (c :: p.1, p.2)
    else ([], c :: cs)

/-- Numeric value of a digit string, as Python `int` computes it. -/
def digitsVal (ds : List Char) : Nat :=
  ds.foldl (fun a c => a * 10 + (c.toNat - 48)) 0

/-- One optional regex group `((?P<u>\d+)\s*u)?` (case-insensitive on the
unit letter `u`): if the input starts with a digit run followed by optional
whitespace and the unit letter, consume it and return its value, otherwise
consume nothing and return 0. -/
def tryUnit (u : Char) (s : List Char) : Nat × List Char :=
  let p := splitDigits s
  if p.1 = [] then (0, s)
  else
    match dropWs p.2 with
    | [] => (0, s)
    | c :: rest => if c.toLower = u then (digitsVal p.1, rest) else (0, s)

/-- Matching of the whole duration regex against a character list: the four
optional unit groups in order, whitespace-separated, anchored at both ends. -/
def matchDuration (s : List Char) : Option Nat :=
  let pd := tryUnit 'd' (dropWs s)
  let ph := tryUnit 'h' (dropWs pd.2)
  let pm := tryUnit 'm' (dropWs ph.2)
  let pse := tryUnit 's' (dropWs pm.2)
  if dropWs pse.2 = [] then
    some (pd.1 * 86400 + ph.1 * 3600 + pm.1 * 60 + pse.1)
  else none

/-- `parse_time_value` (source lines 46-55): strip the input, match the
duration regex, and on success return
`days*86400 + hours*3600 + minutes*60 + seconds`; `none` models Python's
`None` result for a failed match. -/
def parse_time_value (s : String) : Option Nat :=
  matchDuration (stripWs s.data)

/-- Hardware calls issued by the app, in order: LED brightness writes,
relative stage moves, photo captures (tagged with the capture instant) and
camera preview start/stop. -/
inductive HWEvent
  | setLed (level : Rat)
  | moveRel (v : Int × Int × Int)
  | takePhoto (t : Nat)
  | startPreview
  | stopPreview
deriving DecidableEq, Repr

/-- Current LED brightness after a sequence of hardware calls: the level of
the last `setLed`, `0` before any write (the hardware starts dark). -/
def ledLevel (l : List HWEvent) : Rat :=
  l.foldl (fun acc e => match e with | HWEvent.setLed v => v | _ => acc) 0

/-- Number of `stopPreview` calls in a hardware log. -/
def stopCount : List HWEvent → Nat
  | [] => 0
  | HWEvent.stopPreview :: l => stopCount l + 1
  | _ :: l => stopCount l

/-- The relative-move vectors of a hardware log, in order. -/
def movesOf : List HWEvent → List (Int × Int × Int)
  | [] => []
  | HWEvent.moveRel v :: l => v :: movesOf l
  | _ :: l => movesOf l

/-- The mutable state of class `App` (source lines 57-118), restricted to
the fields with behavioural content, plus the hardware-call log `hw` and the
operator-message log `messages`.  `after_id` is the pending `root.after`
callback, recorded as the instant it is scheduled to fire; `folder` is the
capture folder, recorded as the instant whose timestamp names it;
`controls_enabled` is the common state of the jog buttons, the increment
button, the LED scale and the preview button. -/
structure AppState where
  motor_increment_fine : Int
  motor_increment_coarse : Int
  led_brightness : Rat
  timelapse_running : Bool
  after_id : Option Nat
  previewing : Bool
  folder : Option Nat
  end_time : Option Nat
  captures : List Nat
  controls_enabled : Bool
  hw : List HWEvent
  messages : List String
deriving DecidableEq, Repr

/-- The state built by `App.__init__`: default increments 50/500, default
LED brightness 0.33, nothing running, no pending callback, controls live. -/
def initState : AppState :=
  { motor_increment_fine := 50
    motor_increment_coarse := 500
    led_brightness := 0.33
    timelapse_running := false
    after_id := none
    previewing := false
    folder := none
    end_time := none
    captures := []
    controls_enabled := true
    hw := []
    messages := [] }

/-- `App.move` (lines 150-154): set the LED to the configured brightness,
send the relative move, then set the LED back to 0.  `fault` is `true` when
`move_rel` raises a hardware fault; the Sangaboard context manager neither
suppresses the exception nor touches the LED, so on a fault the method
re-raises (`Bool` result `true`) without reaching the restoring write. -/
def move (s : AppState) (rel : Int × Int × Int) (fault : Bool) : AppState × Bool :=
  let s1 := { s with hw := s.hw ++ [HWEvent.setLed s.led_brightness, HWEvent.moveRel rel] }
  if fault then (s1, true)
  else ({ s1 with hw := s1.hw ++ [HWEvent.setLed 0] }, false)

/-- The six jog buttons of `build_motor_controls` (lines 126-128): label and
unit direction vector. -/
def axes : List (String × (Int × Int × Int)) :=
  [("X+", (1, 0, 0)), ("Y+", (0, 1, 0)), ("Z+", (0, 0, 1)),
   ("X-", (-1, 0, 0)), ("Y-", (0, -1, 0)), ("Z-", (0, 0, -1))]

/-- Componentwise scaling of a direction vector by an increment, as in
`rel_c = (d[0]*inc, d[1]*inc, d[2]*inc)` (lines 131 and 135). -/
def scaleVec (k : Int) (d : Int × Int × Int) : Int × Int × Int :=
  (d.1 * k, d.2.1 * k, d.2.2 * k)

/-- Pressing one jog button (lines 130-138): the button's command calls
`move` exactly once with the direction scaled by the tier's currently
configured increment (the lambda captured the vector by value at build
time, which equals this product of the current configuration). -/
def jog (s : AppState) (d : Int × Int × Int) (fine : Bool) (fault : Bool) :
    AppState × Bool :=
  move s (scaleVec (if fine then s.motor_increment_fine else s.motor_increment_coarse) d) fault

/-- `App.toggle_preview` (lines 162-176). -/
def toggle_preview (s : AppState) : AppState :=
  if !s.previewing then
    { s with hw := s.hw ++ [HWEvent.setLed s.led_brightness, HWEvent.startPreview]
             previewing := true }
  else
    { s with hw := s.hw ++ [HWEvent.stopPreview, HWEvent.setLed 0]
             previewing := false }

/-- `App.update_led` (lines 156-160). -/
def update_led (s : AppState) (val : Rat) : AppState :=
  let s1 := { s with led_brightness := val }
  if s1.previewing then { s1 with hw := s1.hw ++ [HWEvent.setLed val] } else s1

/-- `App.change_increments` (lines 140-148): the two dialogs return `none`
on cancel (no change); `askinteger` with `minvalue=1` only ever returns a
value of at least 1. -/
def change_increments (s : AppState) (newCoarse newFine : Option Int) : AppState :=
  match newCoarse with
  | none => s
  | some c =>
    match newFine with
    | none => s
    | some f => { s with motor_increment_coarse := c, motor_increment_fine := f }

/-- `App._reset_after_timelapse` (lines 208-215): re-enable the interactive
controls, restore the start button, clear the running flag. -/
def reset_after_timelapse (s : AppState) : AppState :=
  { s with controls_enabled := true, timelapse_running := false }

/-- `App.finish_timelapse` (lines 204-206). -/
def finish_timelapse (s : AppState) : AppState :=
  reset_after_timelapse { s with messages := s.messages ++ ["Timelapse complete"] }

/-- `App.stop_timelapse` (lines 198-202): cancel the pending `after`
callback if there is one, report, reset. -/
def stop_timelapse (s : AppState) : AppState :=
  let s1 := if s.after_id.isSome then { s with after_id := none } else s
  reset_after_timelapse { s1 with messages := s1.messages ++ ["Timelapse stopped early"] }

/-- `App.capture_loop` (lines 217-236), one invocation at loop-top instant
`now`.  If the end instant has been reached, finish; otherwise bracket one
photo with LED on/off and schedule the next invocation `freq` seconds after
this frame finishes (`overhead` seconds after `now`).  `fault` is `true`
when `take_photo` raises: the exception then propagates before the
restoring LED write, the frame is not recorded, and nothing is scheduled. -/
def capture_loop (s : AppState) (freq now overhead : Nat) (fault : Bool) :
    AppState × Bool :=
  match s.end_time with
  | none => (s, false)
  | some endT =>
    if endT ≤ now then (finish_timelapse s, false)
    else
      let s1 := { s with hw := s.hw ++ [HWEvent.setLed s.led_brightness, HWEvent.takePhoto now] }
      if fault then (s1, true)
      else
        ({ s1 with hw := s1.hw ++ [HWEvent.setLed 0]
                   captures := s1.captures ++ [now]
                   after_id := some (now + overhead + freq) }, false)

/-- `App.start_timelapse` (lines 178-196): parse both entry texts, reject
invalid or non-positive values with an error box and no other change,
otherwise disable the interactive controls, create the session folder,
compute the end instant, set the running flag and run the first
`capture_loop` iteration synchronously at the same instant. -/
def start_timelapse (s : AppState) (durText freqText : String) (now : Nat) : AppState :=
  if s.timelapse_running then s
  else
    match parse_time_value durText, parse_time_value freqText with
    | some dv, some fv =>
      if dv = 0 ∨ fv = 0 then
        { s with messages := s.messages ++ ["Invalid duration or frequency"] }
      else
        let s1 := { s with controls_enabled := false
                           folder := some now
                           end_time := some (now + dv)
                           timelapse_running := true }
        (capture_loop s1 fv now 0 false).1
    | _, _ => { s with messages := s.messages ++ ["Invalid duration or frequency"] }

/-- The Tk event loop, nominally: while a callback is pending, fire it at
its scheduled instant (`capture_loop` with zero frame overhead and no
fault); `fuel` bounds the number of firings.  Firing consumes the pending
callback before the body runs. -/
def fire (s : AppState) (freq fuel : Nat) : AppState :=
  match fuel with
  | 0 => s
  | fuel' + 1 =>
    match s.after_id with
    | none => s
    | some t => fire (capture_loop { s with after_id := none } freq t 0 false).1 freq fuel'

/-- A full nominal timelapse session: confirm settings at instant `t0`,
then let the event loop fire the scheduled captures. -/
def session (s : AppState) (durText freqText : String) (t0 fuel : Nat) : AppState :=
  fire (start_timelapse s durText freqText t0) ((parse_time_value freqText).getD 0) fuel

/-! ### Helper definitions used by the theorems -/

/-- Every character of the list is an ASCII digit. -/
def allDigits (l : List Char) : Prop := ∀ c ∈ l, c.isDigit = true

instance (l : List Char) : Decidable (allDigits l) := by
  unfold allDigits
  infer_instance

/-- One rendered duration component: empty when the component is omitted,
otherwise a separating blank, the digit run and the (lowercase) unit. -/
def comp (ds : List Char) (u : Char) : List Char :=
  if ds = [] then [] else ' ' :: (ds ++ [u])

/-- Rendering of the grammar's trailing seconds component. -/
def rend4 (d : List Char) : List Char := comp d 's'

/-- Rendering of the minutes-then-seconds components. -/
def rend3 (c d : List Char) : List Char := comp c 'm' ++ rend4 d

/-- Rendering of the hours-then-minutes-then-seconds components. -/
def rend2 (b c d : List Char) : List Char := comp b 'h' ++ rend3 c d

/-- Canonical rendering of a duration text from its four optional digit-run
components, in grammar order. -/
def render (a b c d : List Char) : List Char := comp a 'd' ++ rend2 b c d

/-- ASCII characters the duration grammar can consume: whitespace, digits
and the four unit letters in either case.  Only meaningful within the ASCII
range: the source regex can also consume Unicode whitespace and Unicode
decimal digits, so theorems built on this classifier restrict themselves to
all-ASCII inputs. -/
def goodChar (c : Char) : Bool :=
  isWs c || c.isDigit || c.toLower = 'd' || c.toLower = 'h' || c.toLower = 'm' || c.toLower = 's'

/-- The guard of `start_timelapse` (line 182), read positively: both entry
texts parse and are strictly positive. -/
def startGuard (dTxt fTxt : String) : Prop :=
  (∃ dv, parse_time_value dTxt = some dv ∧ 0 < dv) ∧
  (∃ fv, parse_time_value fTxt = some fv ∧ 0 < fv)

/-- Number of non-zero components of a displacement vector. -/
def nnz (v : Int × Int × Int) : Nat :=
  (if v.1 = 0 then 0 else 1) + (if v.2.1 = 0 then 0 else 1) +
    (if v.2.2 = 0 then 0 else 1)

/-- The app state after the operator turns the preview on from the initial
state. -/
def previewState : AppState := toggle_preview initState

/-- The app state right after confirming a 10-second duration with a
5-second frequency at instant 0 (first frame already captured). -/
def runningState : AppState := start_timelapse initState "10s" "5s" 0

/-- The app state right after confirming a 1-hour duration with a 5-second
frequency at instant 0 (first frame already captured). -/
def hourSessionState : AppState := start_timelapse initState "1h" "5s" 0

/-! ### Whitespace and digit-run lemmas -/

theorem dropWs_cons_ws {c : Char} (l : List Char) (h : isWs c = true) :
    dropWs (c :: l) = dropWs l := by
  simp [dropWs, h]

theorem dropWs_cons_not_ws {c : Char} (l : List Char) (h : isWs c = false) :
    dropWs (c :: l) = c :: l := by
  simp [dropWs, h]

theorem dropWs_idem (l : List Char) : dropWs (dropWs l) = dropWs l := by
  induction l with
  | nil => rfl
  | cons c l ih =>
    cases h : isWs c with
    | true => rw [dropWs_cons_ws _ h]; exact ih
    | false => rw [dropWs_cons_not_ws _ h, dropWs_cons_not_ws _ h]

theorem not_ws_of_digit {c : Char} (h : c.isDigit = true) : isWs c = false := by
  cases hws : isWs c with
  | false => rfl
  | true =>
    exfalso
    simp only [isWs, Bool.or_eq_true, decide_eq_true_eq] at hws
    rcases hws with ((((h1 | h1) | h1) | h1) | h1) | h1 <;> subst h1 <;>
      exact absurd h (by decide)

theorem splitDigits_append (a : List Char) (u : Char) (r : List Char)
    (ha : allDigits a) (hu : u.isDigit = false) :
    splitDigits (a ++ u :: r) = (a, u :: r) := by
  induction a with
  | nil => simp [splitDigits, hu]
  | cons c a ih =>
    have hc : c.isDigit = true := ha c (List.mem_cons_self c a)
    have ha' : allDigits a := fun x hx => ha x (List.mem_cons_of_mem c hx)
    simp [splitDigits, hc, ih ha']

theorem splitDigits_append_eq (l : List Char) :
    (splitDigits l).1 ++ (splitDigits l).2 = l := by
  induction l with
  | nil => rfl
  | cons e l ih =>
    cases he : e.isDigit with
    | true => simp [splitDigits, he, ih]
    | false => simp [splitDigits, he]

theorem splitDigits_digits (l : List Char) : allDigits (splitDigits l).1 := by
  induction l with
  | nil => exact fun c hc => absurd hc (List.not_mem_nil c)
  | cons e l ih =>
    cases he : e.isDigit with
    | true =>
      intro c hc
      simp only [splitDigits, he, if_pos] at hc
      rcases List.mem_cons.mp hc with rfl | hc
      · exact he
      · exact ih c hc
    | false =>
      intro c hc
      simp [splitDigits, he] at hc

/-! ### Behaviour of one optional unit group -/

theorem tryUnit_nil (u : Char) : tryUnit u [] = (0, []) := rfl

theorem tryUnit_hit (u : Char) (ds rest : List Char) (hds : allDigits ds) (hne : ds ≠ [])
    (hu1 : u.isDigit = false) (hu2 : isWs u = false) (hu3 : u.toLower = u) :
    tryUnit u (ds ++ u :: rest) = (digitsVal ds, rest) := by
  simp only [tryUnit]
  rw [splitDigits_append ds u rest hds hu1]
  simp [hne, dropWs_cons_not_ws _ hu2, hu3]

theorem tryUnit_miss_unit (u v : Char) (ds rest : List Char) (hds : allDigits ds)
    (hv1 : v.isDigit = false) (hv2 : isWs v = false) (hv3 : ¬ v.toLower = u) :
    tryUnit u (ds ++ v :: rest) = (0, ds ++ v :: rest) := by
  simp only [tryUnit]
  rw [splitDigits_append ds v rest hds hv1]
  by_cases h : ds = []
  · simp [h]
  · simp [h, dropWs_cons_not_ws _ hv2, hv3]

theorem dropWs_space_digits (ds r : List Char) (hds : allDigits ds) (hne : ds ≠ []) :
    dropWs (' ' :: (ds ++ r)) = ds ++ r := by
  rw [dropWs_cons_ws _ (by decide)]
  cases ds with
  | nil => exact absurd rfl hne
  | cons e ds' =>
    exact dropWs_cons_not_ws _ (not_ws_of_digit (hds e (List.mem_cons_self e ds')))

/-! ### A group never fires on the rendering of later components -/

theorem tryUnit_rend4 (u : Char) (d : List Char) (hd : allDigits d)
    (hs : ¬ ('s' : Char).toLower = u) :
    tryUnit u (dropWs (rend4 d)) = (0, dropWs (rend4 d)) := by
  by_cases h : d = []
  · simp [rend4, comp, h, dropWs, tryUnit, splitDigits]
  · have e : dropWs (rend4 d) = d ++ 's' :: [] := by
      simp only [rend4, comp, if_neg h]
      exact dropWs_space_digits d ['s'] hd h
    rw [e]
    exact tryUnit_miss_unit u 's' d [] hd (by decide) (by decide) hs

theorem tryUnit_rend3 (u : Char) (c d : List Char) (hc : allDigits c) (hd : allDigits d)
    (hm : ¬ ('m' : Char).toLower = u) (hs : ¬ ('s' : Char).toLower = u) :
    tryUnit u (dropWs (rend3 c d)) = (0, dropWs (rend3 c d)) := by
  by_cases h : c = []
  · have e : rend3 c d = rend4 d := by simp [rend3, comp, h]
    rw [e]
    exact tryUnit_rend4 u d hd hs
  · have e : dropWs (rend3 c d) = c ++ 'm' :: rend4 d := by
      simp only [rend3, comp, if_neg h]
      rw [show (' ' :: (c ++ ['m'])) ++ rend4 d = ' ' :: (c ++ ('m' :: rend4 d)) by simp]
      exact dropWs_space_digits c _ hc h
    rw [e]
    exact tryUnit_miss_unit u 'm' c (rend4 d) hc (by decide) (by decide) hm

theorem tryUnit_rend2 (u : Char) (b c d : List Char)
    (hb : allDigits b) (hc : allDigits c) (hd : allDigits d)
    (hh : ¬ ('h' : Char).toLower = u) (hm : ¬ ('m' : Char).toLower = u)
    (hs : ¬ ('s' : Char).toLower = u) :
    tryUnit u (dropWs (rend2 b c d)) = (0, dropWs (rend2 b c d)) := by
  by_cases h : b = []
  · have e : rend2 b c d = rend3 c d := by simp [rend2, comp, h]
    rw [e]
    exact tryUnit_rend3 u c d hc hd hm hs
  · have e : dropWs (rend2 b c d) = b ++ 'h' :: rend3 c d := by
      simp only [rend2, comp, if_neg h]
      rw [show (' ' :: (b ++ ['h'])) ++ rend3 c d = ' ' :: (b ++ ('h' :: rend3 c d)) by simp]
      exact dropWs_space_digits b _ hb h
    rw [e]
    exact tryUnit_miss_unit u 'h' b (rend3 c d) hb (by decide) (by decide) hh

/-! ### Stage lemmas: each group extracts exactly its component -/

theorem stage_d (a b c d : List Char) (ha : allDigits a) (hb : allDigits b)
    (hc : allDigits c) (hd : allDigits d) :
    (tryUnit 'd' (dropWs (render a b c d))).1 = digitsVal a ∧
    dropWs (tryUnit 'd' (dropWs (render a b c d))).2 = dropWs (rend2 b c d) := by
  by_cases h : a = []
  · have e : render a b c d = rend2 b c d := by simp [render, comp, h]
    rw [e, tryUnit_rend2 'd' b c d hb hc hd (by decide) (by decide) (by decide)]
    exact ⟨by simp [h, digitsVal], dropWs_idem _⟩
  · have e : dropWs (render a b c d) = a ++ 'd' :: rend2 b c d := by
      simp only [render, comp, if_neg h]
      rw [show (' ' :: (a ++ ['d'])) ++ rend2 b c d = ' ' :: (a ++ ('d' :: rend2 b c d)) by simp]
      exact dropWs_space_digits a _ ha h
    rw [e, tryUnit_hit 'd' a (rend2 b c d) ha h (by decide) (by decide) (by decide)]
    exact ⟨rfl, rfl⟩

theorem stage_h (b c d : List Char) (hb : allDigits b) (hc : allDigits c)
    (hd : allDigits d) :
    (tryUnit 'h' (dropWs (rend2 b c d))).1 = digitsVal b ∧
    dropWs (tryUnit 'h' (dropWs (rend2 b c d))).2 = dropWs (rend3 c d) := by
  by_cases h : b = []
  · have e : rend2 b c d = rend3 c d := by simp [rend2, comp, h]
    rw [e, tryUnit_rend3 'h' c d hc hd (by decide) (by decide)]
    exact ⟨by simp [h, digitsVal], dropWs_idem _⟩
  · have e : dropWs (rend2 b c d) = b ++ 'h' :: rend3 c d := by
      simp only [rend2, comp, if_neg h]
      rw [show (' ' :: (b ++ ['h'])) ++ rend3 c d = ' ' :: (b ++ ('h' :: rend3 c d)) by simp]
      exact dropWs_space_digits b _ hb h
    rw [e, tryUnit_hit 'h' b (rend3 c d) hb h (by decide) (by decide) (by decide)]
    exact ⟨rfl, rfl⟩

theorem stage_m (c d : List Char) (hc : allDigits c) (hd : allDigits d) :
    (tryUnit 'm' (dropWs (rend3 c d))).1 = digitsVal c ∧
    dropWs (tryUnit 'm' (dropWs (rend3 c d))).2 = dropWs (rend4 d) := by
  by_cases h : c = []
  · have e : rend3 c d = rend4 d := by simp [rend3, comp, h]
    rw [e, tryUnit_rend4 'm' d hd (by decide)]
    exact ⟨by simp [h, digitsVal], dropWs_idem _⟩
  · have e : dropWs (rend3 c d) = c ++ 'm' :: rend4 d := by
      simp only [rend3, comp, if_neg h]
      rw [show (' ' :: (c ++ ['m'])) ++ rend4 d = ' ' :: (c ++ ('m' :: rend4 d)) by simp]
      exact dropWs_space_digits c _ hc h
    rw [e, tryUnit_hit 'm' c (rend4 d) hc h (by decide) (by decide) (by decide)]
    exact ⟨rfl, rfl⟩

theorem stage_s (d : List Char) (hd : allDigits d) :
    (tryUnit 's' (dropWs (rend4 d))).1 = digitsVal d ∧
    dropWs (tryUnit 's' (dropWs (rend4 d))).2 = [] := by
  by_cases h : d = []
  · subst h
    exact ⟨rfl, rfl⟩
  · have e : dropWs (rend4 d) = d ++ 's' :: [] := by
      simp only [rend4, comp, if_neg h]
      exact dropWs_space_digits d ['s'] hd h
    rw [e, tryUnit_hit 's' d [] hd h (by decide) (by decide) (by decide)]
    exact ⟨rfl, rfl⟩

/-- The duration matcher maps any rendered component quadruple to its
weighted sum of components. -/
theorem matchDuration_render (a b c d : List Char) (ha : allDigits a) (hb : allDigits b)
    (hc : allDigits c) (hd : allDigits d) :
    matchDuration (render a b c d) =
      some (digitsVal a * 86400 + digitsVal b * 3600 + digitsVal c * 60 + digitsVal d) := by
  obtain ⟨d1, d2⟩ := stage_d a b c d ha hb hc hd
  obtain ⟨h1, h2⟩ := stage_h b c d hb hc hd
  obtain ⟨m1, m2⟩ := stage_m c d hc hd
  obtain ⟨s1, s2⟩ := stage_s d hd
  simp only [matchDuration]
  rw [d2, h2, m2, s2, d1, h1, m1, s1]
  simp

/-! ### Stripping commutes with matching on rendered inputs -/

theorem dropWs_ends (r : List Char) (u : Char) :
    dropWs (r ++ [u]) = [] ∨ ∃ r', dropWs (r ++ [u]) = r' ++ [u] := by
  induction r with
  | nil =>
    cases h : isWs u with
    | true => left; rw [List.nil_append, dropWs_cons_ws _ h]; rfl
    | false => right; exact ⟨[], by rw [List.nil_append, dropWs_cons_not_ws _ h]⟩
  | cons c r ih =>
    cases h : isWs c with
    | true => rw [List.cons_append, dropWs_cons_ws _ h]; exact ih
    | false =>
      right
      exact ⟨c :: r, by rw [List.cons_append, dropWs_cons_not_ws _ h]⟩

theorem stripWs_of_ends (l r : List Char) (u : Char) (hl : l = r ++ [u])
    (hu : isWs u = false) : stripWs l = dropWs l := by
  subst hl
  rcases dropWs_ends r u with h1 | ⟨r', h1⟩
  · rw [stripWs, h1]
    rfl
  · rw [stripWs, h1]
    have e : (r' ++ [u]).reverse = u :: r'.reverse := by simp
    rw [e, dropWs_cons_not_ws _ hu]
    simp

theorem matchDuration_dropWs (l : List Char) :
    matchDuration (dropWs l) = matchDuration l := by
  simp only [matchDuration, dropWs_idem]

/-- `parse_time_value` on any rendered component quadruple returns the
weighted sum of the components. -/
theorem parse_render (a b c d : List Char) (ha : allDigits a) (hb : allDigits b)
    (hc : allDigits c) (hd : allDigits d) :
    parse_time_value (String.mk (render a b c d)) =
      some (digitsVal a * 86400 + digitsVal b * 3600 + digitsVal c * 60 + digitsVal d) := by
  have hstrip : stripWs (render a b c d) = dropWs (render a b c d) := by
    by_cases h4 : d = []
    · by_cases h3 : c = []
      · by_cases h2 : b = []
        · by_cases h1 : a = []
          · simp [render, rend2, rend3, rend4, comp, h1, h2, h3, h4, stripWs, dropWs]
          · apply stripWs_of_ends _ (' ' :: a) 'd' ?_ (by decide)
            simp [render, rend2, rend3, rend4, comp, h1, h2, h3, h4]
        · apply stripWs_of_ends _ (comp a 'd' ++ ' ' :: b) 'h' ?_ (by decide)
          simp [render, rend2, rend3, rend4, comp, h2, h3, h4]
      · apply stripWs_of_ends _ (comp a 'd' ++ comp b 'h' ++ ' ' :: c) 'm' ?_ (by decide)
        simp [render, rend2, rend3, rend4, comp, h3, h4]
    · apply stripWs_of_ends _ (comp a 'd' ++ comp b 'h' ++ comp c 'm' ++ ' ' :: d) 's' ?_
        (by decide)
      simp [render, rend2, rend3, rend4, comp, h4]
  show matchDuration (stripWs (render a b c d)) = _
  rw [hstrip, matchDuration_dropWs]
  exact matchDuration_render a b c d ha hb hc hd

/-! ### A successful match only ever consumes grammar characters -/

theorem mem_dropWs_or (l : List Char) (c : Char) (h : c ∈ l) :
    isWs c = true ∨ c ∈ dropWs l := by
  induction l with
  | nil => cases h
  | cons e l ih =>
    cases he : isWs e with
    | true =>
      rw [dropWs_cons_ws _ he]
      rcases List.mem_cons.mp h with rfl | h'
      · exact Or.inl he
      · exact ih h'
    | false =>
      rw [dropWs_cons_not_ws _ he]
      exact Or.inr h

theorem mem_dropWs_of_not_ws (l : List Char) (c : Char) (h : c ∈ l)
    (hws : isWs c = false) : c ∈ dropWs l := by
  induction l with
  | nil => cases h
  | cons e l ih =>
    cases he : isWs e with
    | true =>
      rw [dropWs_cons_ws _ he]
      rcases List.mem_cons.mp h with rfl | h'
      · rw [he] at hws; cases hws
      · exact ih h'
    | false =>
      rw [dropWs_cons_not_ws _ he]
      exact h

theorem mem_stripWs (l : List Char) (c : Char) (h : c ∈ l) (hws : isWs c = false) :
    c ∈ stripWs l := by
  rw [stripWs, List.mem_reverse]
  exact mem_dropWs_of_not_ws _ c (List.mem_reverse.mpr (mem_dropWs_of_not_ws l c h hws)) hws

theorem mem_tryUnit (u : Char) (hu : u = 'd' ∨ u = 'h' ∨ u = 'm' ∨ u = 's')
    (l : List Char) (c : Char) (h : c ∈ l) :
    goodChar c = true ∨ c ∈ (tryUnit u l).2 := by
  simp only [tryUnit]
  by_cases h1 : (splitDigits l).1 = []
  · simp only [h1, if_pos]
    exact Or.inr h
  · cases hd : dropWs (splitDigits l).2 with
    | nil => simp only [h1, hd, if_neg]; exact Or.inr h
    | cons e rest =>
      by_cases he : e.toLower = u
      · simp only [h1, hd, he, if_neg, if_pos]
        rw [← splitDigits_append_eq l] at h
        rcases List.mem_append.mp h with hmem | hmem
        · exact Or.inl (by simp [goodChar, splitDigits_digits l c hmem])
        · rcases mem_dropWs_or _ c hmem with hw | hmem'
          · exact Or.inl (by simp [goodChar, hw])
          · rw [hd] at hmem'
            rcases List.mem_cons.mp hmem' with rfl | hmem''
            · left
              rcases hu with rfl | rfl | rfl | rfl <;> simp [goodChar, he]
            · exact Or.inr hmem''
      · simp only [h1, hd, he, if_neg]
        exact Or.inr h

theorem matchDuration_good (l : List Char) (v : Nat) (h : matchDuration l = some v) :
    ∀ c ∈ l, goodChar c = true := by
  intro c hc
  by_contra hbad
  have hbad' : goodChar c = false := by
    cases hg : goodChar c
    · rfl
    · exact absurd hg hbad
  have hnw : isWs c = false := by
    cases hw : isWs c
    · rfl
    · exfalso
      have : goodChar c = true := by simp [goodChar, hw]
      rw [hbad'] at this; cases this
  have step0 : c ∈ dropWs l := mem_dropWs_of_not_ws l c hc hnw
  have step1 : c ∈ (tryUnit 'd' (dropWs l)).2 := by
    rcases mem_tryUnit 'd' (Or.inl rfl) (dropWs l) c step0 with hg | hm
    · rw [hbad'] at hg; cases hg
    · exact hm
  have step2 : c ∈ dropWs (tryUnit 'd' (dropWs l)).2 :=
    mem_dropWs_of_not_ws _ c step1 hnw
  have step3 : c ∈ (tryUnit 'h' (dropWs (tryUnit 'd' (dropWs l)).2)).2 := by
    rcases mem_tryUnit 'h' (Or.inr (Or.inl rfl)) _ c step2 with hg | hm
    · rw [hbad'] at hg; cases hg
    · exact hm
  have step4 : c ∈ dropWs (tryUnit 'h' (dropWs (tryUnit 'd' (dropWs l)).2)).2 :=
    mem_dropWs_of_not_ws _ c step3 hnw
  have step5 :
      c ∈ (tryUnit 'm' (dropWs (tryUnit 'h' (dropWs (tryUnit 'd' (dropWs l)).2)).2)).2 := by
    rcases mem_tryUnit 'm' (Or.inr (Or.inr (Or.inl rfl))) _ c step4 with hg | hm
    · rw [hbad'] at hg; cases hg
    · exact hm
  have step6 :
      c ∈ dropWs (tryUnit 'm' (dropWs (tryUnit 'h' (dropWs (tryUnit 'd' (dropWs l)).2)).2)).2 :=
    mem_dropWs_of_not_ws _ c step5 hnw
  have step7 :
      c ∈ (tryUnit 's' (dropWs (tryUnit 'm' (dropWs (tryUnit 'h'
        (dropWs (tryUnit 'd' (dropWs l)).2)).2)).2)).2 := by
    rcases mem_tryUnit 's' (Or.inr (Or.inr (Or.inr rfl))) _ c step6 with hg | hm
    · rw [hbad'] at hg; cases hg
    · exact hm
  have step8 :
      c ∈ dropWs (tryUnit 's' (dropWs (tryUnit 'm' (dropWs (tryUnit 'h'
        (dropWs (tryUnit 'd' (dropWs l)).2)).2)).2)).2 :=
    mem_dropWs_of_not_ws _ c step7 hnw
  simp only [matchDuration] at h
  by_cases hcond : dropWs (tryUnit 's' (dropWs (tryUnit 'm' (dropWs (tryUnit 'h'
      (dropWs (tryUnit 'd' (dropWs l)).2)).2)).2)).2 = []
  · rw [hcond] at step8
    cases step8
  · rw [if_neg hcond] at h
    cases h

/-! ### Claim C3 -/

/-- C3 counterexample: the claim includes the empty string and
whitespace-only strings among the inputs `parse_time_value` must report
invalid, but the regex matches them (every group is optional), so the
parser returns the seconds value 0 rather than `None`. -/
theorem c3_counterexample :
    parse_time_value "" = some 0 ∧ parse_time_value "   " = some 0 := by
  exact ⟨by decide, by decide⟩

/-- C3 amended: every all-ASCII input containing a character the duration
grammar cannot consume (not whitespace, not a digit, not a unit letter in
either case) is reported invalid — in particular "abc", "5 seconds" and
"-5s" — but the empty string and whitespace-only strings match the grammar
with all components omitted and yield `some 0` rather than invalid.  The
universal part is stated for all-ASCII strings only, because that is the
fragment on which the embedded character classes coincide with CPython's
Unicode-aware `\s`/`\d`. -/
theorem c3_invalid_inputs :
    (∀ (s : String) (c : Char), (∀ x ∈ s.data, x.toNat < 128) → c ∈ s.data →
      goodChar c = false → parse_time_value s = none) ∧
    parse_time_value "abc" = none ∧
    parse_time_value "5 seconds" = none ∧
    parse_time_value "-5s" = none ∧
    parse_time_value "" = some 0 ∧
    parse_time_value "  " = some 0 := by
  refine ⟨?_, by decide, by decide, by decide, by decide, by decide⟩
  intro s c _hascii hc hbad
  cases h : parse_time_value s with
  | none => rfl
  | some v =>
    exfalso
    have hws : isWs c = false := by
      cases hw : isWs c
      · rfl
      · have : goodChar c = true := by simp [goodChar, hw]
        rw [hbad] at this
        cases this
    have hmem : c ∈ stripWs s.data := mem_stripWs s.data c hc hws
    have hgood : goodChar c = true := by
      have h' : matchDuration (stripWs s.data) = some v := h
      exact matchDuration_good _ v h' c hmem
    rw [hbad] at hgood
    cases hgood

/-- C3 amended, witness: the all-ASCII string "q2" contains the non-grammar
character 'q', so the parser reports invalid. -/
theorem c3_invalid_inputs_witness : parse_time_value "q2" = none :=
  c3_invalid_inputs.1 "q2" 'q' (by decide) (by decide) (by decide)

/-! ### Claim C4 -/

/-- C4 counterexample: the claim's example value for "1d 4h 30m" is 104400,
but 1*86400 + 4*3600 + 30*60 = 102600, which is what the parser returns. -/
theorem c4_counterexample :
    parse_time_value "1d 4h 30m" = some 102600 ∧
    ¬ parse_time_value "1d 4h 30m" = some 104400 := by
  exact ⟨by decide, by decide⟩

/-- C4 amended: for every input matching the duration grammar (rendered
from its four optional digit-run components in grammar order, omitted
components contributing 0), the parser deterministically returns
`days*86400 + hours*3600 + minutes*60 + seconds`; in particular
"1d 4h 30m" yields 102600 (not 104400), "5s" yields 5 and "2h" yields
7200, case-insensitively and tolerating surrounding whitespace. -/
theorem c4_weighted_sum :
    (∀ a b c d : List Char, allDigits a → allDigits b → allDigits c → allDigits d →
      parse_time_value (String.mk (render a b c d)) =
        some (digitsVal a * 86400 + digitsVal b * 3600 + digitsVal c * 60 + digitsVal d)) ∧
    parse_time_value "1d 4h 30m" = some 102600 ∧
    parse_time_value "5s" = some 5 ∧
    parse_time_value "2h" = some 7200 ∧
    parse_time_value "1D 4H 30M" = some 102600 ∧
    parse_time_value " 2h  " = some 7200 := by
  exact ⟨parse_render, by decide, by decide, by decide, by decide, by decide⟩

/-- C4 amended, witness: the rendered quadruple (1 day, 4 hours,
30 minutes, no seconds) parses to its weighted component sum. -/
theorem c4_weighted_sum_witness :
    parse_time_value (String.mk (render ['1'] ['4'] ['3', '0'] [])) =
      some (digitsVal ['1'] * 86400 + digitsVal ['4'] * 3600 +
        digitsVal ['3', '0'] * 60 + digitsVal []) :=
  c4_weighted_sum.1 ['1'] ['4'] ['3', '0'] [] (by decide) (by decide) (by decide) (by decide)

/-! ### Hardware-log lemmas -/

theorem ledLevel_append (l1 l2 : List HWEvent) :
    ledLevel (l1 ++ l2) =
      List.foldl (fun acc e => match e with | HWEvent.setLed v => v | _ => acc)
        (ledLevel l1) l2 := by
  simp [ledLevel, List.foldl_append]

theorem stopCount_append (l1 l2 : List HWEvent) :
    stopCount (l1 ++ l2) = stopCount l1 + stopCount l2 := by
  induction l1 with
  | nil => simp [stopCount]
  | cons e l ih =>
    cases e <;> simp [stopCount, ih] <;> omega

theorem movesOf_append (l1 l2 : List HWEvent) :
    movesOf (l1 ++ l2) = movesOf l1 ++ movesOf l2 := by
  induction l1 with
  | nil => simp [movesOf]
  | cons e l ih =>
    cases e <;> simp [movesOf, ih]

/-! ### Claim C1 -/

/-- C1 counterexample: a jog move whose `move_rel` call faults re-raises
without the restoring write, so the illumination measured after the bracket
is the configured brightness 0.33, not 0.0. -/
theorem c1_counterexample :
    (move initState (0, 500, 0) true).2 = true ∧
    ¬ ledLevel (move initState (0, 500, 0) true).1.hw = 0 := by
  constructor
  · rfl
  · have e : ledLevel (move initState (0, 500, 0) true).1.hw = 0.33 := by
      simp [move, initState, ledLevel]
    rw [e]
    norm_num

/-- C1 amended: when the bracketed operation (a jog's `move_rel` or a
capture's `take_photo`) returns normally, the restoring write runs and the
illumination measured after the bracket is 0.0; when it faults, the fault
propagates immediately and the restoring write is skipped, leaving the
illumination at the configured brightness. -/
theorem c1_bracket (s : AppState) (rel : Int × Int × Int)
    (freq now overhead endT : Nat) (hend : s.end_time = some endT)
    (hnow : now < endT) :
    ledLevel (move s rel false).1.hw = 0 ∧
    (move s rel false).2 = false ∧
    ledLevel (capture_loop s freq now overhead false).1.hw = 0 ∧
    (capture_loop s freq now overhead false).2 = false ∧
    ledLevel (move s rel true).1.hw = s.led_brightness ∧
    (move s rel true).2 = true ∧
    ledLevel (capture_loop s freq now overhead true).1.hw = s.led_brightness ∧
    (capture_loop s freq now overhead true).2 = true := by
  have hne : ¬ endT ≤ now := not_le.mpr hnow
  refine ⟨?_, by simp [move], ?_, ?_, ?_, by simp [move], ?_, ?_⟩
  · simp [move, ledLevel_append]
  · simp [capture_loop, hend, hne, ledLevel_append]
  · simp [capture_loop, hend, hne]
  · simp [move, ledLevel_append]
  · simp [capture_loop, hend, hne, ledLevel_append]
  · simp [capture_loop, hend, hne]

/-- C1 amended, witness: in the running state with end instant 10, at
loop-top instant 5, both bracket variants behave as stated. -/
theorem c1_bracket_witness :
    ledLevel (move runningState (1, 0, 0) false).1.hw = 0 ∧
    (move runningState (1, 0, 0) false).2 = false ∧
    ledLevel (capture_loop runningState 5 5 0 false).1.hw = 0 ∧
    (capture_loop runningState 5 5 0 false).2 = false ∧
    ledLevel (move runningState (1, 0, 0) true).1.hw = runningState.led_brightness ∧
    (move runningState (1, 0, 0) true).2 = true ∧
    ledLevel (capture_loop runningState 5 5 0 true).1.hw = runningState.led_brightness ∧
    (capture_loop runningState 5 5 0 true).2 = true :=
  c1_bracket runningState (1, 0, 0) 5 5 0 10 (by decide) (by decide)

/-! ### Claim C2 -/

/-- C2 counterexample: proceeding from a state with an active preview
establishes the whole timelapse state (folder, running flag) while the
preview is still active — `start_timelapse` never stops the preview and
never issues a `stop_preview` call. -/
theorem c2_counterexample :
    (start_timelapse previewState "30m" "5s" 0).previewing = true ∧
    (start_timelapse previewState "30m" "5s" 0).timelapse_running = true ∧
    (start_timelapse previewState "30m" "5s" 0).folder = some 0 ∧
    stopCount (start_timelapse previewState "30m" "5s" 0).hw = 0 := by
  refine ⟨by decide, by decide, by decide, by decide⟩

/-- C2 amended: on a valid "proceed" the interactive controls (including
the preview button) are disabled and the timelapse state (folder, end
instant, running flag) is established, but an active preview is not
stopped — the previewing flag is unchanged and no `stop_preview` call is
issued — and illumination is not forced to 0.0 before the timelapse state
is set up (it is only driven afterwards by the capture brackets). -/
theorem c2_preview_not_stopped (s : AppState) (dTxt fTxt : String) (now dv fv : Nat)
    (hrun : s.timelapse_running = false)
    (hd : parse_time_value dTxt = some dv) (hdpos : 0 < dv)
    (hf : parse_time_value fTxt = some fv) (hfpos : 0 < fv) :
    (start_timelapse s dTxt fTxt now).previewing = s.previewing ∧
    stopCount (start_timelapse s dTxt fTxt now).hw = stopCount s.hw ∧
    (start_timelapse s dTxt fTxt now).folder = some now ∧
    (start_timelapse s dTxt fTxt now).end_time = some (now + dv) ∧
    (start_timelapse s dTxt fTxt now).timelapse_running = true ∧
    (start_timelapse s dTxt fTxt now).controls_enabled = false := by
  have hz : ¬ (dv = 0 ∨ fv = 0) := by omega
  have hlt : ¬ (now + dv ≤ now) := by omega
  refine ⟨?_, ?_, ?_, ?_, ?_, ?_⟩ <;>
    simp [start_timelapse, hrun, hd, hf, hz, capture_loop, hlt, stopCount_append, stopCount]

/-- C2 amended, witness: proceeding from the previewing state with texts
"30m" and "5s" at instant 0. -/
theorem c2_preview_not_stopped_witness :
    (start_timelapse previewState "30m" "5s" 0).previewing = previewState.previewing ∧
    stopCount (start_timelapse previewState "30m" "5s" 0).hw = stopCount previewState.hw ∧
    (start_timelapse previewState "30m" "5s" 0).folder = some 0 ∧
    (start_timelapse previewState "30m" "5s" 0).end_time = some (0 + 1800) ∧
    (start_timelapse previewState "30m" "5s" 0).timelapse_running = true ∧
    (start_timelapse previewState "30m" "5s" 0).controls_enabled = false :=
  c2_preview_not_stopped previewState "30m" "5s" 0 1800 5 (by decide) (by decide)
    (by decide) (by decide) (by decide)

/-! ### Claim C10 -/

/-- C10: every jog is itself an illumination bracket: the hardware-call
sequence of a completed jog is exactly set-LED-to-brightness, relative
move, set-LED-to-0; the LED is lit at the configured brightness at the
moment the move is issued, and a completed jog leaves illumination 0.0. -/
theorem c10_jog_is_bracket (s : AppState) (rel : Int × Int × Int) :
    (move s rel false).1.hw =
      s.hw ++ [HWEvent.setLed s.led_brightness, HWEvent.moveRel rel, HWEvent.setLed 0] ∧
    ledLevel (s.hw ++ [HWEvent.setLed s.led_brightness, HWEvent.moveRel rel]) =
      s.led_brightness ∧
    ledLevel (move s rel false).1.hw = 0 ∧
    (move s rel false).2 = false := by
  refine ⟨by simp [move], ?_, ?_, by simp [move]⟩
  · simp [ledLevel_append]
  · simp [move, ledLevel_append]

/-! ### Claim C5 -/

/-- C5: the confirm transition establishes the running state exactly when
both texts parse to strictly positive seconds; otherwise the operator gets
the validation error box and nothing else in the state changes — no folder,
no end instant, running flag still false, controls still enabled. -/
theorem c5_validation (s : AppState) (dTxt fTxt : String) (now : Nat)
    (hrun : s.timelapse_running = false) :
    ((start_timelapse s dTxt fTxt now).timelapse_running = true ↔ startGuard dTxt fTxt) ∧
    (¬ startGuard dTxt fTxt →
      start_timelapse s dTxt fTxt now =
        { s with messages := s.messages ++ ["Invalid duration or frequency"] }) := by
  cases hd : parse_time_value dTxt with
  | none =>
    have hg : ¬ startGuard dTxt fTxt := by
      rintro ⟨⟨dv, hdv, _⟩, _⟩
      rw [hd] at hdv
      cases hdv
    have he : start_timelapse s dTxt fTxt now =
        { s with messages := s.messages ++ ["Invalid duration or frequency"] } := by
      simp [start_timelapse, hrun, hd]
    refine ⟨?_, fun _ => he⟩
    rw [he]
    exact iff_of_false (by simp [hrun]) hg
  | some dv =>
    cases hf : parse_time_value fTxt with
    | none =>
      have hg : ¬ startGuard dTxt fTxt := by
        rintro ⟨_, ⟨fv, hfv, _⟩⟩
        rw [hf] at hfv
        cases hfv
      have he : start_timelapse s dTxt fTxt now =
          { s with messages := s.messages ++ ["Invalid duration or frequency"] } := by
        simp [start_timelapse, hrun, hd, hf]
      refine ⟨?_, fun _ => he⟩
      rw [he]
      exact iff_of_false (by simp [hrun]) hg
    | some fv =>
      by_cases hz : dv = 0 ∨ fv = 0
      · have hg : ¬ startGuard dTxt fTxt := by
          rintro ⟨⟨dv', hdv', hdp⟩, ⟨fv', hfv', hfp⟩⟩
          rw [hd] at hdv'
          rw [hf] at hfv'
          obtain rfl : dv = dv' := Option.some.inj hdv'
          obtain rfl : fv = fv' := Option.some.inj hfv'
          omega
        have he : start_timelapse s dTxt fTxt now =
            { s with messages := s.messages ++ ["Invalid duration or frequency"] } := by
          simp [start_timelapse, hrun, hd, hf, hz]
        refine ⟨?_, fun _ => he⟩
        rw [he]
        exact iff_of_false (by simp [hrun]) hg
      · have hg : startGuard dTxt fTxt :=
          ⟨⟨dv, hd, by omega⟩, ⟨fv, hf, by omega⟩⟩
        have hlt : ¬ (now + dv ≤ now) := by omega
        refine ⟨?_, fun hng => absurd hg hng⟩
        have he2 : (start_timelapse s dTxt fTxt now).timelapse_running = true := by
          simp [start_timelapse, hrun, hd, hf, hz, capture_loop, hlt]
        exact iff_of_true he2 hg

/-- C5 witness: the scenario with duration text "0s": the parser returns 0,
the guard fails, the transition is rejected, the error is reported and
nothing else changes. -/
theorem c5_validation_witness :
    (((start_timelapse initState "0s" "5s" 0).timelapse_running = true ↔
        startGuard "0s" "5s") ∧
      (¬ startGuard "0s" "5s" →
        start_timelapse initState "0s" "5s" 0 =
          { initState with
              messages := initState.messages ++ ["Invalid duration or frequency"] })) ∧
    (start_timelapse initState "0s" "5s" 0).timelapse_running = false ∧
    (start_timelapse initState "0s" "5s" 0).messages = ["Invalid duration or frequency"] ∧
    (start_timelapse initState "0s" "5s" 0).folder = none ∧
    (start_timelapse initState "0s" "5s" 0).end_time = none ∧
    (start_timelapse initState "0s" "5s" 0).controls_enabled = true :=
  ⟨c5_validation initState "0s" "5s" 0 rfl, by decide, by decide, by decide, by decide,
    by decide⟩

/-! ### Claim C6 -/

/-- C6: one `capture_loop` invocation at loop-top instant `now` captures a
frame exactly when `now` is before the end instant, finishes exactly when
`now` is at or past it, and when it captures it schedules the next
iteration `freq` seconds after the current frame finishes
(`now + overhead`), not from a fixed schedule origin. -/
theorem c6_loop (s : AppState) (freq now overhead endT : Nat)
    (hend : s.end_time = some endT) (hrun : s.timelapse_running = true) :
    ((capture_loop s freq now overhead false).1.captures = s.captures ++ [now] ↔
      now < endT) ∧
    ((capture_loop s freq now overhead false).1.timelapse_running = false ↔
      endT ≤ now) ∧
    (now < endT →
      (capture_loop s freq now overhead false).1.after_id =
        some (now + overhead + freq)) ∧
    (endT ≤ now →
      (capture_loop s freq now overhead false).1 = finish_timelapse s ∧
      (finish_timelapse s).captures = s.captures ∧
      (finish_timelapse s).controls_enabled = true ∧
      (finish_timelapse s).hw = s.hw) := by
  by_cases hle : endT ≤ now
  · have hnl : ¬ now < endT := not_lt.mpr hle
    refine ⟨?_, ?_, fun h => absurd h hnl, fun _ => ?_⟩
    · exact iff_of_false
        (by simp [capture_loop, hend, hle, finish_timelapse, reset_after_timelapse]) hnl
    · exact iff_of_true
        (by simp [capture_loop, hend, hle, finish_timelapse, reset_after_timelapse]) hle
    · exact ⟨by simp [capture_loop, hend, hle],
        by simp [finish_timelapse, reset_after_timelapse],
        by simp [finish_timelapse, reset_after_timelapse],
        by simp [finish_timelapse, reset_after_timelapse]⟩
  · have hlt : now < endT := not_le.mp hle
    refine ⟨iff_of_true (by simp [capture_loop, hend, hle]) hlt,
      iff_of_false (by simp [capture_loop, hend, hle, hrun]) hle,
      fun _ => by simp [capture_loop, hend, hle],
      fun h => absurd h hle⟩

/-- C6 witness: in the running 10-second session, the loop-top check at
instant 5 with a 2-second frame captures and schedules instant 12. -/
theorem c6_loop_witness :
    ((capture_loop runningState 5 5 2 false).1.captures =
        runningState.captures ++ [5] ↔ 5 < 10) ∧
    ((capture_loop runningState 5 5 2 false).1.timelapse_running = false ↔
      10 ≤ 5) ∧
    (5 < 10 →
      (capture_loop runningState 5 5 2 false).1.after_id = some (5 + 2 + 5)) ∧
    (10 ≤ 5 →
      (capture_loop runningState 5 5 2 false).1 = finish_timelapse runningState ∧
      (finish_timelapse runningState).captures = runningState.captures ∧
      (finish_timelapse runningState).controls_enabled = true ∧
      (finish_timelapse runningState).hw = runningState.hw) :=
  c6_loop runningState 5 5 2 10 (by decide) (by decide)

/-! ### Claim C7 -/

/-- C7: a jog sends exactly one relative-move vector; it has exactly one
non-zero component, the sign of every component matches the direction
vector, its total magnitude is the currently configured increment of the
chosen tier, and the defaults are coarse 500 and fine 50. -/
theorem c7_jog (s : AppState) (label : String) (d : Int × Int × Int)
    (hmem : (label, d) ∈ axes) (fine : Bool)
    (hpos : 0 < (if fine then s.motor_increment_fine else s.motor_increment_coarse)) :
    movesOf (jog s d fine false).1.hw = movesOf s.hw ++
      [scaleVec (if fine then s.motor_increment_fine else s.motor_increment_coarse) d] ∧
    nnz (scaleVec (if fine then s.motor_increment_fine else s.motor_increment_coarse) d)
      = 1 ∧
    (scaleVec (if fine then s.motor_increment_fine else s.motor_increment_coarse) d).1.sign
      = d.1 ∧
    (scaleVec (if fine then s.motor_increment_fine else s.motor_increment_coarse) d).2.1.sign
      = d.2.1 ∧
    (scaleVec (if fine then s.motor_increment_fine else s.motor_increment_coarse) d).2.2.sign
      = d.2.2 ∧
    |(scaleVec (if fine then s.motor_increment_fine else s.motor_increment_coarse) d).1| +
      |(scaleVec (if fine then s.motor_increment_fine else s.motor_increment_coarse) d).2.1| +
      |(scaleVec (if fine then s.motor_increment_fine else s.motor_increment_coarse) d).2.2|
      = (if fine then s.motor_increment_fine else s.motor_increment_coarse) ∧
    initState.motor_increment_coarse = 500 ∧
    initState.motor_increment_fine = 50 := by
  set inc := if fine then s.motor_increment_fine else s.motor_increment_coarse with hinc
  have h1 : inc ≠ 0 := ne_of_gt hpos
  constructor
  · simp [jog, move, ← hinc, movesOf_append, movesOf]
  · fin_cases hmem <;>
      simp [scaleVec, nnz, h1, abs_of_pos hpos, Int.sign_eq_one_iff_pos.mpr hpos,
        Int.sign_neg, abs_neg, neg_ne_zero, initState]

/-- C7 witness: the scenario jog Y+ at the default coarse increment 500
sends the vector (0, 500, 0) exactly once. -/
theorem c7_jog_witness :
    (movesOf (jog initState (0, 1, 0) false false).1.hw = movesOf initState.hw ++
      [scaleVec
        (if false then initState.motor_increment_fine else initState.motor_increment_coarse)
        (0, 1, 0)] ∧
    nnz (scaleVec
        (if false then initState.motor_increment_fine else initState.motor_increment_coarse)
        (0, 1, 0)) = 1 ∧
    (scaleVec
        (if false then initState.motor_increment_fine else initState.motor_increment_coarse)
        (0, 1, 0)).1.sign = (0 : Int) ∧
    (scaleVec
        (if false then initState.motor_increment_fine else initState.motor_increment_coarse)
        (0, 1, 0)).2.1.sign = (1 : Int) ∧
    (scaleVec
        (if false then initState.motor_increment_fine else initState.motor_increment_coarse)
        (0, 1, 0)).2.2.sign = (0 : Int) ∧
    |(scaleVec
        (if false then initState.motor_increment_fine else initState.motor_increment_coarse)
        (0, 1, 0)).1| +
      |(scaleVec
        (if false then initState.motor_increment_fine else initState.motor_increment_coarse)
        (0, 1, 0)).2.1| +
      |(scaleVec
        (if false then initState.motor_increment_fine else initState.motor_increment_coarse)
        (0, 1, 0)).2.2| =
      (if false then initState.motor_increment_fine else initState.motor_increment_coarse) ∧
    initState.motor_increment_coarse = 500 ∧
    initState.motor_increment_fine = 50) ∧
    movesOf (jog initState (0, 1, 0) false false).1.hw = [(0, 500, 0)] :=
  ⟨c7_jog initState "Y+" (0, 1, 0) (by decide) false (by decide), by decide⟩

/-! ### Claim C8 -/

/-- C8: cancelling while a wait is pending removes the pending callback (so
the event loop never fires another capture), leaves every recorded capture
and the whole hardware log untouched (illumination stays 0.0 after a
completed frame), clears the running flag, re-enables the interactive
controls and reports the early stop. -/
theorem c8_cancel (s : AppState) (w : Nat) (ha : s.after_id = some w)
    (hled : ledLevel s.hw = 0) :
    (stop_timelapse s).after_id = none ∧
    (stop_timelapse s).captures = s.captures ∧
    (stop_timelapse s).hw = s.hw ∧
    ledLevel (stop_timelapse s).hw = 0 ∧
    (stop_timelapse s).timelapse_running = false ∧
    (stop_timelapse s).controls_enabled = true ∧
    (stop_timelapse s).messages = s.messages ++ ["Timelapse stopped early"] ∧
    (∀ freq fuel, fire (stop_timelapse s) freq fuel = stop_timelapse s) := by
  have h1 : (stop_timelapse s).after_id = none := by
    simp [stop_timelapse, ha, reset_after_timelapse]
  have h3 : (stop_timelapse s).hw = s.hw := by
    simp [stop_timelapse, ha, reset_after_timelapse]
  refine ⟨h1, by simp [stop_timelapse, ha, reset_after_timelapse], h3, ?_, ?_, ?_, ?_, ?_⟩
  · rw [h3]
    exact hled
  · simp [stop_timelapse, ha, reset_after_timelapse]
  · simp [stop_timelapse, ha, reset_after_timelapse]
  · simp [stop_timelapse, ha, reset_after_timelapse]
  · intro freq fuel
    cases fuel with
    | zero => rfl
    | succ n => simp [fire, h1]

/-- C8 witness: the scenario of a "1h"/"5s" session cancelled after its
first frame: exactly one capture event remains, illumination is 0.0, the
pending wait is gone and the controls are interactive again. -/
theorem c8_cancel_witness :
    ((stop_timelapse hourSessionState).after_id = none ∧
      (stop_timelapse hourSessionState).captures = hourSessionState.captures ∧
      (stop_timelapse hourSessionState).hw = hourSessionState.hw ∧
      ledLevel (stop_timelapse hourSessionState).hw = 0 ∧
      (stop_timelapse hourSessionState).timelapse_running = false ∧
      (stop_timelapse hourSessionState).controls_enabled = true ∧
      (stop_timelapse hourSessionState).messages =
        hourSessionState.messages ++ ["Timelapse stopped early"] ∧
      (∀ freq fuel, fire (stop_timelapse hourSessionState) freq fuel =
        stop_timelapse hourSessionState)) ∧
    hourSessionState.captures = [0] :=
  ⟨c8_cancel hourSessionState 5 (by decide) (by decide), by decide⟩

/-! ### Claim C9 -/

/-- Event-loop invariant: firing pending callbacks only ever appends capture
timestamps, and if the recorded timestamps are sorted and bounded by the
pending callback's instant, they stay sorted. -/
theorem fire_mono_chain (freq : Nat) : ∀ (fuel : Nat) (s : AppState),
    List.Chain' (· ≤ ·) s.captures →
    (∀ w, s.after_id = some w → ∀ t ∈ s.captures, t ≤ w) →
    List.Chain' (· ≤ ·) (fire s freq fuel).captures ∧
    ∃ l, (fire s freq fuel).captures = s.captures ++ l := by
  intro fuel
  induction fuel with
  | zero =>
    intro s hc _
    exact ⟨hc, [], by simp [fire]⟩
  | succ n ih =>
    intro s hc hb
    cases ha : s.after_id with
    | none =>
      have e : fire s freq (n + 1) = s := by simp [fire, ha]
      rw [e]
      exact ⟨hc, [], by simp⟩
    | some w =>
      cases hend : s.end_time with
      | none =>
        have e : fire s freq (n + 1) =
            fire (capture_loop { s with after_id := none } freq w 0 false).1 freq n := by
          simp [fire, ha]
        rw [e]
        have e2 : (capture_loop { s with after_id := none } freq w 0 false).1 =
            { s with after_id := none } := by
          simp [capture_loop, hend]
        rw [e2]
        obtain ⟨hc', l, hl⟩ := ih { s with after_id := none } hc
          (by intro w' hw' t ht; simp at hw')
        exact ⟨hc', l, hl⟩
      | some endT =>
        have e : fire s freq (n + 1) =
            fire (capture_loop { s with after_id := none } freq w 0 false).1 freq n := by
          simp [fire, ha]
        rw [e]
        by_cases hle : endT ≤ w
        · have e2 : (capture_loop { s with after_id := none } freq w 0 false).1 =
              finish_timelapse { s with after_id := none } := by
            simp [capture_loop, hend, hle]
          rw [e2]
          obtain ⟨hc', l, hl⟩ := ih (finish_timelapse { s with after_id := none })
            (by simpa [finish_timelapse, reset_after_timelapse] using hc)
            (by intro w' hw' t ht; simp [finish_timelapse, reset_after_timelapse] at hw')
          exact ⟨hc', l, by simpa [finish_timelapse, reset_after_timelapse] using hl⟩
        · set s2 := (capture_loop { s with after_id := none } freq w 0 false).1 with hs2
          have hcap2 : s2.captures = s.captures ++ [w] := by
            simp [hs2, capture_loop, hend, hle]
          have haft2 : s2.after_id = some (w + 0 + freq) := by
            simp [hs2, capture_loop, hend, hle]
          have hchain2 : List.Chain' (· ≤ ·) s2.captures := by
            rw [hcap2]
            apply List.Chain'.append hc (List.chain'_singleton w)
            intro x hx y hy
            rcases List.mem_getLast?_eq_getLast hx with ⟨hne, rfl⟩
            simp at hy
            subst hy
            exact hb w ha _ (List.getLast_mem hne)
          have hbound2 : ∀ w', s2.after_id = some w' → ∀ t ∈ s2.captures, t ≤ w' := by
            intro w' hw' t ht
            rw [haft2] at hw'
            obtain rfl : w + 0 + freq = w' := Option.some.inj hw'
            rw [hcap2] at ht
            rcases List.mem_append.mp ht with ht | ht
            · have := hb w ha t ht
              omega
            · simp at ht
              subst ht
              omega
          obtain ⟨hc', l, hl⟩ := ih s2 hchain2 hbound2
          refine ⟨hc', [w] ++ l, ?_⟩
          rw [hl, hcap2, List.append_assoc]

/-- C9: every session confirmed with valid strictly positive duration and
frequency records at least one frame (the loop-top check at the start
instant passes for any positive duration), and the capture timestamps are
recorded in non-decreasing order. -/
theorem c9_session (s : AppState) (dTxt fTxt : String) (t0 fuel dv fv : Nat)
    (hrun : s.timelapse_running = false) (hcap : s.captures = [])
    (hd : parse_time_value dTxt = some dv) (hdpos : 0 < dv)
    (hf : parse_time_value fTxt = some fv) (hfpos : 0 < fv) :
    1 ≤ (session s dTxt fTxt t0 fuel).captures.length ∧
    List.Chain' (· ≤ ·) (session s dTxt fTxt t0 fuel).captures := by
  have hz : ¬ (dv = 0 ∨ fv = 0) := by omega
  have hlt : ¬ (t0 + dv ≤ t0) := by omega
  have hcap1 : (start_timelapse s dTxt fTxt t0).captures = [t0] := by
    simp [start_timelapse, hrun, hd, hf, hz, capture_loop, hlt, hcap]
  have haft1 : (start_timelapse s dTxt fTxt t0).after_id = some (t0 + 0 + fv) := by
    simp [start_timelapse, hrun, hd, hf, hz, capture_loop, hlt]
  have hses : session s dTxt fTxt t0 fuel =
      fire (start_timelapse s dTxt fTxt t0) fv fuel := by
    simp [session, hf]
  obtain ⟨hc', l, hl⟩ := fire_mono_chain fv fuel (start_timelapse s dTxt fTxt t0)
    (by rw [hcap1]; exact List.chain'_singleton t0)
    (by intro w hw t ht
        rw [haft1] at hw
        obtain rfl : t0 + 0 + fv = w := Option.some.inj hw
        rw [hcap1] at ht
        simp at ht
        subst ht
        omega)
  rw [hses]
  constructor
  · rw [hl, hcap1]
    simp
  · exact hc'

/-- C9 witness: the scenario duration "10s", frequency "5s": the nominal
session captures exactly the two frames at instants 0 and 5 (hence at
least two and in order) and then reaches the finished state. -/
theorem c9_session_witness :
    (1 ≤ (session initState "10s" "5s" 0 3).captures.length ∧
      List.Chain' (· ≤ ·) (session initState "10s" "5s" 0 3).captures) ∧
    (session initState "10s" "5s" 0 3).captures = [0, 5] ∧
    (session initState "10s" "5s" 0 3).timelapse_running = false ∧
    (session initState "10s" "5s" 0 3).messages = ["Timelapse complete"] :=
  ⟨c9_session initState "10s" "5s" 0 3 10 5 rfl rfl (by decide) (by decide) (by decide)
    (by decide), by decide, by decide, by decide⟩
